import Mathlib

/-!
Shallow embedding of the `historic-gb-generation-mix` ingestion pipeline
(`src/ingest/{client,validate,transform,load,run}.py`) and proofs of the
spec claims about it.

Modelling conventions:
- UTC timestamps are integers (seconds since the civil epoch 1970-01-01),
  computed from ISO-8601 components by the standard civil-calendar formula.
- Python floats are modelled as rationals (`ℚ`); the library calls
  `float(str)` and `datetime.fromisoformat` are modelled by executable
  parsers (over `List Char`, so that they reduce in the kernel) covering
  the decimal / ISO-8601 shapes the upstream API emits.
- Python dicts are association lists; `dict.get` / `d[k]` is `alookup`.
- Python exceptions are `Except` values.
-/

namespace GenMix

/-- A JSON-ish scalar as delivered by CKAN to the validator: null, a number,
a string, or an already-typed datetime (seconds since epoch). -/
inductive Scalar where
  | null : Scalar
  | num (q : ℚ) : Scalar
  | str (s : String) : Scalar
  | dt (t : ℤ) : Scalar
deriving DecidableEq

instance {ε α : Type} [DecidableEq ε] [DecidableEq α] : DecidableEq (Except ε α) :=
  fun x y =>
    match x, y with
    | .ok a, .ok b =>
      match decEq a b with
      | isTrue h => isTrue (h ▸ rfl)
      | isFalse h => isFalse (fun hc => h (Except.ok.inj hc))
    | .error e, .error f =>
      match decEq e f with
      | isTrue h => isTrue (h ▸ rfl)
      | isFalse h => isFalse (fun hc => h (Except.error.inj hc))
    | .ok _, .error _ => isFalse (fun hc => Except.noConfusion hc)
    | .error _, .ok _ => isFalse (fun hc => Except.noConfusion hc)

/-- Association-list lookup, modelling Python `dict` access and the
relational lookup of a table row by its primary key: the first binding of
the key wins (a real `dict` or keyed table has unique keys). -/
def alookup {κ α : Type} [DecidableEq κ] : List (κ × α) → κ → Option α
  | [], _ => none
  | (k, v) :: rest, key => if k = key then some v else alookup rest key

/-- Constant `NUMERIC_KEYS` from `src/ingest/validate.py`: the allow-list of upstream
NESO fields that are expected to be numeric. -/
def NUMERIC_KEYS : List String :=
  ["GAS", "COAL", "NUCLEAR", "WIND", "WIND_EMB", "HYDRO", "IMPORTS",
   "BIOMASS", "OTHER", "SOLAR", "STORAGE", "GENERATION",
   "CARBON_INTENSITY", "LOW_CARBON", "ZERO_CARBON", "RENEWABLE", "FOSSIL",
   "GAS_perc", "COAL_perc", "NUCLEAR_perc", "WIND_perc", "WIND_EMB_perc",
   "HYDRO_perc", "IMPORTS_perc", "BIOMASS_perc", "OTHER_perc",
   "SOLAR_perc", "STORAGE_perc", "GENERATION_perc"]

/-- Split a character list at every occurrence of `sep`
(the semantics of `String.splitOn` for a one-character separator). -/
def splitOnC (sep : Char) : List Char → List (List Char)
  | [] => [[]]
  | c :: rest =>
    match splitOnC sep rest with
    | [] => [[]]
    | g :: gs => if c = sep then [] :: g :: gs else (c :: g) :: gs

/-- Parse a nonempty all-digit character list to a natural number. -/
def digitsToNat? (l : List Char) : Option ℕ :=
  if l.isEmpty then none
  else if l.all Char.isDigit then
    some (l.foldl (fun n c => n * 10 + (c.toNat - 48)) 0)
  else none

/-- Parse an optionally signed decimal integer (used for float exponents). -/
def parseIntC? : List Char → Option ℤ
  | '-' :: rest => (digitsToNat? rest).map (fun n => -(n : ℤ))
  | '+' :: rest => (digitsToNat? rest).map (fun n => (n : ℤ))
  | l => (digitsToNat? l).map (fun n => (n : ℤ))

/-- Parse the mantissa part of a decimal float literal: `123`, `12.5`,
`.5`, `1.` are accepted; a lone `.` or garbage is not. -/
def parseMantissaC? (m : List Char) : Option ℚ :=
  match splitOnC '.' m with
  | [i] => (digitsToNat? i).map (fun n => (n : ℚ))
  | [i, f] =>
    if i.isEmpty && f.isEmpty then none
    else
      let ip? := if i.isEmpty then some 0 else digitsToNat? i
      let fp? := if f.isEmpty then some 0 else digitsToNat? f
      match ip?, fp? with
      | some ip, some fp => some ((ip : ℚ) + (fp : ℚ) / ((10 : ℚ) ^ f.length))
      | _, _ => none
  | _ => none

/-- ASCII whitespace for the model of Python's `str.strip`. -/
def isPySpace (c : Char) : Bool :=
  c = ' ' || c = '\t' || c = '\n' || c = '\r' || c = '\x0b' || c = '\x0c'

/-- Strip leading and trailing whitespace. -/
def trimC (l : List Char) : List Char :=
  ((l.dropWhile isPySpace).reverse.dropWhile isPySpace).reverse

/-- Model of Python `float(str)`: strips whitespace, optional sign, decimal
mantissa with optional `e`/`E` exponent. Returns `none` where `float`
raises `ValueError` (the `inf`/`nan` words, irrelevant to this dataset,
are outside the model and also map to `none`). -/
def pyFloatC? (l : List Char) : Option ℚ :=
  let t := trimC l
  let sb : Bool × List Char :=
    match t with
    | '-' :: rest => (true, rest)
    | '+' :: rest => (false, rest)
    | _ => (false, t)
  let body := sb.2.map (fun c => if c = 'E' then 'e' else c)
  let res :=
    match splitOnC 'e' body with
    | [m] => parseMantissaC? m
    | [m, e] =>
      match parseMantissaC? m, parseIntC? e with
      | some q, some ex => some (q * (10 : ℚ) ^ ex)
      | _, _ => none
    | _ => none
  if sb.1 then res.map Neg.neg else res

/-- Model of Python `float(str)` on a `String`. -/
def pyFloat? (s : String) : Option ℚ := pyFloatC? s.data

/-- Days from 1970-01-01 for a civil date (Howard Hinnant's algorithm),
used to model CPython's proleptic-Gregorian datetime arithmetic. -/
def days_from_civil (y : ℤ) (m d : ℕ) : ℤ :=
  let y' : ℤ := if m ≤ 2 then y - 1 else y
  let era : ℤ := (if 0 ≤ y' then y' else y' - 399) / 400
  let yoe : ℤ := y' - era * 400
  let doy : ℤ := (153 * ((m : ℤ) + (if 2 < m then -3 else 9)) + 2) / 5 + (d : ℤ) - 1
  let doe : ℤ := yoe * 365 + yoe / 4 - yoe / 100 + doy
  era * 146097 + doe - 719468

/-- Parse `YYYY-MM-DD`. -/
def parseDateC? (l : List Char) : Option (ℤ × ℕ × ℕ) :=
  match splitOnC '-' l with
  | [ys, ms, ds] =>
    if ys.length = 4 ∧ ms.length = 2 ∧ ds.length = 2 then
      match digitsToNat? ys, digitsToNat? ms, digitsToNat? ds with
      | some y, some mo, some d =>
        if 1 ≤ mo ∧ mo ≤ 12 ∧ 1 ≤ d ∧ d ≤ 31 then some ((y : ℤ), mo, d)
        else none
      | _, _, _ => none
    else none
  | _ => none

/-- Parse `HH:MM[:SS[.ffffff]]` to seconds within the day (fractional
seconds are floored away, matching the integer-seconds timestamp model). -/
def parseHMSC? (l : List Char) : Option ℕ :=
  match splitOnC ':' l with
  | [hs, ms] =>
    if hs.length = 2 ∧ ms.length = 2 then
      match digitsToNat? hs, digitsToNat? ms with
      | some h, some mi =>
        if h < 24 ∧ mi < 60 then some (h * 3600 + mi * 60) else none
      | _, _ => none
    else none
  | [hs, ms, ss] =>
    let fr := splitOnC '.' ss
    let ssMain := fr.headD ss
    let fracOk : Bool :=
      match fr with
      | [_] => true
      | [_, f] => !f.isEmpty && f.all Char.isDigit
      | _ => false
    if hs.length = 2 ∧ ms.length = 2 ∧ ssMain.length = 2 ∧ fracOk = true then
      match digitsToNat? hs, digitsToNat? ms, digitsToNat? ssMain with
      | some h, some mi, some sec =>
        if h < 24 ∧ mi < 60 ∧ sec < 60 then some (h * 3600 + mi * 60 + sec)
        else none
      | _, _, _ => none
    else none
  | _ => none

/-- Parse a UTC-offset suffix `HH:MM` to seconds. -/
def parseOffC? (l : List Char) : Option ℤ :=
  match splitOnC ':' l with
  | [hs, ms] =>
    if hs.length = 2 ∧ ms.length = 2 then
      match digitsToNat? hs, digitsToNat? ms with
      | some h, some mi =>
        if h < 24 ∧ mi < 60 then some ((h : ℤ) * 3600 + mi * 60) else none
      | _, _ => none
    else none
  | _ => none

/-- Parse a time-of-day with an optional `+HH:MM` / `-HH:MM` offset,
returning (seconds of day, offset in seconds). -/
def parseTimeOffC? (l : List Char) : Option (ℕ × ℤ) :=
  if l.contains '+' then
    match splitOnC '+' l with
    | [t, off] =>
      match parseHMSC? t, parseOffC? off with
      | some secs, some o => some (secs, o)
      | _, _ => none
    | _ => none
  else if l.contains '-' then
    match splitOnC '-' l with
    | [t, off] =>
      match parseHMSC? t, parseOffC? off with
      | some secs, some o => some (secs, -o)
      | _, _ => none
    | _ => none
  else
    (parseHMSC? l).map (fun secs => (secs, 0))

/-- Model of `datetime.fromisoformat` on the shapes this pipeline meets:
`YYYY-MM-DD[THH:MM[:SS[.ffffff]][±HH:MM]]`, normalized to UTC seconds. -/
def isoParseC? (l : List Char) : Option ℤ :=
  match splitOnC 'T' l with
  | [d] =>
    (parseDateC? d).map (fun ymd => days_from_civil ymd.1 ymd.2.1 ymd.2.2 * 86400)
  | [d, t] =>
    match parseDateC? d, parseTimeOffC? t with
    | some ymd, some so =>
      some (days_from_civil ymd.1 ymd.2.1 ymd.2.2 * 86400 + (so.1 : ℤ) - so.2)
    | _, _ => none
  | _ => none

/-- Model of `s.replace "Z" "+00:00"` from `validate.py`, on character lists. -/
def replaceZ : List Char → List Char
  | [] => []
  | c :: rest =>
    if c = 'Z' then '+' :: '0' :: '0' :: ':' :: '0' :: '0' :: replaceZ rest
    else c :: replaceZ rest

/-- Model of `Record.parse_dt` from `src/ingest/validate.py` combined with pydantic's
datetime coercion: a string goes through `fromisoformat` after replacing
`Z` with `+00:00`; a datetime passes through; a number is taken as a unix
timestamp; null fails validation. -/
def parse_dt : Scalar → Option ℤ
  | .str s => isoParseC? (replaceZ s.data)
  | .dt t => some t
  | .num q => some q.floor
  | .null => none

/-- Errors `validate_raw` can raise: `KeyError` for the missing `DATETIME`
field, or a pydantic validation error for an unparsable timestamp. -/
inductive VError where
  | missingField : VError
  | badTimestamp : VError
deriving DecidableEq

/-- The validated `Record` model of `src/ingest/validate.py`. -/
structure Record where
  datetime_utc : ℤ
  payload : List (String × Option ℚ)
deriving DecidableEq

/-- One numeric coercion step of `validate_raw`:
`None if v in (None, "") else float(v)`, with `TypeError`/`ValueError`
mapped to `None`. -/
def coerceNumeric : Scalar → Option ℚ
  | .null => none
  | .str s => if s = "" then none else pyFloat? s
  | .num q => some q
  | .dt _ => none

/-- The payload-building loop of `validate_raw`: iterate the raw record in
order, skip `DATETIME`, keep recognized numeric keys coerced, drop the
rest. -/
def buildPayload : List (String × Scalar) → List (String × Option ℚ)
  | [] => []
  | kv :: rest =>
    if kv.1 = "DATETIME" then buildPayload rest
    else if kv.1 ∈ NUMERIC_KEYS then (kv.1, coerceNumeric kv.2) :: buildPayload rest
    else buildPayload rest

/-- Function `validate_raw` from `src/ingest/validate.py`. -/
def validate_raw (rec : List (String × Scalar)) : Except VError Record :=
  match alookup rec "DATETIME" with
  | none => .error .missingField
  | some v =>
    match parse_dt v with
    | none => .error .badTimestamp
    | some t => .ok ⟨t, buildPayload rec⟩

/-- Constant `MAP_KEYS` from `src/ingest/transform.py`: upstream NESO key to
warehouse column name, in source order. -/
def MAP_KEYS : List (String × String) :=
  [("GAS", "gas_mw"), ("COAL", "coal_mw"), ("NUCLEAR", "nuclear_mw"),
   ("WIND", "wind_mw"), ("WIND_EMB", "wind_emb_mw"), ("HYDRO", "hydro_mw"),
   ("IMPORTS", "imports_mw"), ("BIOMASS", "biomass_mw"), ("OTHER", "other_mw"),
   ("SOLAR", "solar_mw"), ("STORAGE", "storage_mw"),
   ("GENERATION", "generation_mw"),
   ("CARBON_INTENSITY", "carbon_intensity_gco2_kwh"),
   ("LOW_CARBON", "low_carbon_mw"), ("ZERO_CARBON", "zero_carbon_mw"),
   ("RENEWABLE", "renewable_mw"), ("FOSSIL", "fossil_mw"),
   ("GAS_perc", "gas_pct"), ("COAL_perc", "coal_pct"),
   ("NUCLEAR_perc", "nuclear_pct"), ("WIND_perc", "wind_pct"),
   ("WIND_EMB_perc", "wind_emb_pct"), ("HYDRO_perc", "hydro_pct"),
   ("IMPORTS_perc", "imports_pct"), ("BIOMASS_perc", "biomass_pct"),
   ("OTHER_perc", "other_pct"), ("SOLAR_perc", "solar_pct"),
   ("STORAGE_perc", "storage_pct"), ("GENERATION_perc", "generation_pct")]

/-- Function `to_row` from `src/ingest/transform.py`: for each known NESO key, look
up the value in the validated payload (`dict.get`, absent becomes null)
and store it under the warehouse column name. -/
def to_row (valid_payload : List (String × Option ℚ)) : List (String × Option ℚ) :=
  MAP_KEYS.map fun sd => (sd.2, (alookup valid_payload sd.1).getD none)

/-! ## Store (`src/ingest/load.py`)

The `generation_mix` table is modelled relationally: an association list
from the natural key `datetime_utc` to the non-key columns that have been
written for that timestamp (a column never written reads as NULL, i.e. is
absent from the entry). A row submitted to `upsert_rows` is a pair of its
`datetime_utc` and its non-key columns. -/

/-- Non-key columns of one stored or submitted row. -/
abbrev Vals := List (String × Option ℚ)

/-- The stored `generation_mix` table, keyed by `datetime_utc`. -/
abbrev Table := List (ℤ × Vals)

/-- Effect of one `INSERT ... ON CONFLICT (datetime_utc) DO UPDATE` row:
on conflict every column in `cols` (the statement's non-key column list)
is overwritten from the incoming row, other stored columns are untouched;
otherwise the row is inserted. -/
def upsert_one (cols : List String) : Table → ℤ × Vals → Table
  | [], r => [r]
  | (k, old) :: rest, r =>
    if k = r.1 then
      (k, r.2 ++ old.filter (fun kv => decide (kv.1 ∉ cols))) :: rest
    else (k, old) :: upsert_one cols rest r

/-- Function `upsert_rows` from `src/ingest/load.py`: empty input is a no-op
returning 0; otherwise the column list is derived from the first row's
keys, all rows are sent through the single upsert statement in order, and
the number of submitted rows is returned. -/
def upsert_rows (t : Table) (rows : List (ℤ × Vals)) : Table × ℕ :=
  match rows with
  | [] => (t, 0)
  | r0 :: _ =>
    let cols := r0.2.map Prod.fst
    (rows.foldl (upsert_one cols) t, rows.length)

/-- Function `get_max_dt` from `src/ingest/load.py`:
`SELECT max(datetime_utc) FROM generation_mix`, `none` on an empty table. -/
def get_max_dt (t : Table) : Option ℤ :=
  (t.map Prod.fst).max?

instance : DecidableEq (Table × ℕ × ℕ) := fun a b => inferInstanceAs (Decidable (a = b))

/-! ## Fetcher (`src/ingest/client.py`) -/

/-- Constant `MAX_RETRIES` from `src/ingest/client.py` (total attempts). -/
def MAX_RETRIES : ℕ := 5

/-- The retry loop of `fetch_sql`, over an abstract transport that maps the
attempt index to the page or a `requests.RequestException` message.
Returns the outcome together with the total scheduled backoff sleep in
seconds and the number of transport attempts made. `fuel` is
`MAX_RETRIES - attempt`, the remaining iterations of `range(MAX_RETRIES)`;
the exhausted-fuel branch is the function's unreachable trailing
`raise RuntimeError`. -/
def fetch_sql_go {α : Type} (transport : ℕ → Except String α) (attempt : ℕ) :
    ℕ → Except String α × ℕ × ℕ
  | 0 => (.error "Unreachable", 0, 0)
  | fuel + 1 =>
    match transport attempt with
    | .ok a => (.ok a, 0, 1)
    | .error e =>
      if attempt = MAX_RETRIES - 1 then (.error e, 0, 1)
      else
        let r := fetch_sql_go transport (attempt + 1) fuel
        (r.1, 2 ^ attempt + r.2.1, r.2.2 + 1)

/-- Function `fetch_sql` from `src/ingest/client.py`, abstracted over the transport:
up to `MAX_RETRIES` attempts, sleeping `2 ^ attempt` seconds after each
failed non-final attempt, re-raising the final failure. -/
def fetch_sql (transport : ℕ → Except String α) : Except String α × ℕ × ℕ :=
  fetch_sql_go transport 0 MAX_RETRIES

/-- The pagination loop of `iter_window` from `src/ingest/client.py`, over
an abstract upstream mapping an offset to the records of that page.
Returns the yielded pages and the number of page requests issued. The
`fuel` bounds the number of loop iterations (the Python loop is unbounded;
every claim proved below holds for every sufficient fuel). -/
def iter_window_go {α : Type} (fetch : ℕ → List α) (batch_size : ℕ) :
    ℕ → ℕ → List (List α) × ℕ
  | 0, _ => ([], 0)
  | fuel + 1, offset =>
    let records := fetch offset
    if records.isEmpty then ([], 1)
    else if records.length < batch_size then ([records], 1)
    else
      let r := iter_window_go fetch batch_size fuel (offset + records.length)
      (records :: r.1, r.2 + 1)

/-- Generator `iter_window` starting from offset 0. -/
def iter_window (fetch : ℕ → List α) (batch_size fuel : ℕ) : List (List α) × ℕ :=
  iter_window_go fetch batch_size fuel 0

/-! ## Orchestrator (`src/ingest/run.py`) -/

/-- Constant `BATCH_WRITE_SIZE` from `src/ingest/run.py`. -/
def BATCH_WRITE_SIZE : ℕ := 5000

/-- The window computation of `run` (lines 103-118 of `src/ingest/run.py`):
`start` is the explicit override or `now - days`; `end` is the explicit
override or `now + 30min`; then, unless incremental mode is disabled, a
non-empty store clamps `start` to `max(start, latest - overlap_hours)`.
`now` is already aligned down to the hour by the caller; all durations are
in seconds. -/
def compute_window (now days overlap_hours : ℤ) (start_date end_date : Option ℤ)
    (no_incremental : Bool) (t : Table) : ℤ × ℤ :=
  let start := start_date.getD (now - days * 86400)
  let stop := end_date.getD (now + 1800)
  let start :=
    if no_incremental then start
    else
      match get_max_dt t with
      | some last => max start (last - overlap_hours * 3600)
      | none => start
  (start, stop)

/-- Validate-and-transform for one raw record, as in the streaming loop of
`run`: the buffered row is the validated timestamp plus the remapped
non-key columns. -/
def rowify (rec : List (String × Scalar)) : Except VError (ℤ × Vals) :=
  (validate_raw rec).map (fun m => (m.datetime_utc, to_row m.payload))

/-- The per-chunk inner loop of `run`: validate and transform each raw
record of the page in order, propagating the first validation error. -/
def rowifyChunk : List (List (String × Scalar)) → Except VError (List (ℤ × Vals))
  | [] => .ok []
  | rec :: rest =>
    match rowify rec with
    | .error e => .error e
    | .ok row => (rowifyChunk rest).map (fun rs => row :: rs)

/-- The StreamAndBuffer / FlushFinal loop of `run` (lines 120-145 of
`src/ingest/run.py`): pages are consumed in order, every raw record is
validated and transformed onto the buffer, the buffer is flushed through
`upsert_rows` when it reaches `BATCH_WRITE_SIZE`, and a non-empty trailing
buffer is flushed once more. Returns the final table and the
`(fetched, upserted)` stats; a validation error aborts the run. -/
def run_stream_go (t : Table) (buf : List (ℤ × Vals)) (tin tok : ℕ) :
    List (List (List (String × Scalar))) → Except VError (Table × ℕ × ℕ)
  | [] =>
    if buf.isEmpty then .ok (t, tin, tok)
    else
      let r := upsert_rows t buf
      .ok (r.1, tin, tok + r.2)
  | chunk :: rest =>
    match rowifyChunk chunk with
    | .error e => .error e
    | .ok rows =>
      let buf2 := buf ++ rows
      if BATCH_WRITE_SIZE ≤ buf2.length then
        let r := upsert_rows t buf2
        run_stream_go r.1 [] (tin + chunk.length) (tok + r.2) rest
      else
        run_stream_go t buf2 (tin + chunk.length) tok rest

/-- The streaming part of `run` on an initial table and a page stream. -/
def run_stream (t : Table) (pages : List (List (List (String × Scalar)))) :
    Except VError (Table × ℕ × ℕ) :=
  run_stream_go t [] 0 0 pages

/-! ## Proof fixtures: concrete upstreams, transports and batches used
by counterexamples and witnesses -/

/-- Upstream for the C3 counterexample: successive pages of declared sizes
`[1, 1, 0]`, i.e. `[n, n, k]` with `n = 1`, `k = 0 < n`. -/
def fetchCE : ℕ → List ℕ
  | 0 => [10]
  | 1 => [11]
  | _ => []

/-- Upstream for the C3 witness: pages of sizes `[2, 2, 1]` for
`batch_size = 2`. -/
def fetchW : ℕ → List ℕ
  | 0 => [1, 2]
  | 2 => [3, 4]
  | 4 => [5]
  | _ => []

/-- The stored entry for key `r.1` is the submitted values `r.2` followed
by residual columns outside the statement's column list. This is the
invariant a row satisfies after it has been upserted. -/
def entryGood (cols : List String) (r : ℤ × Vals) (t : Table) : Prop :=
  ∃ y, alookup t r.1 = some (r.2 ++ y) ∧ ∀ kv ∈ y, kv.1 ∉ cols

/-- Witness rows for C1: two rows with the same key set and distinct
timestamps. -/
def rowsW : List (ℤ × Vals) :=
  [(0, [("gas_mw", some 1), ("coal_mw", none)]),
   (3600, [("gas_mw", some 2), ("coal_mw", some 3)])]

/-- Transport for the C5 witness: 4 transient failures, then success. -/
def transportW : ℕ → Except String ℕ
  | 0 => .error "boom0"
  | 1 => .error "boom1"
  | 2 => .error "boom2"
  | 3 => .error "boom3"
  | _ => .ok 42

/-- Pages for the C10 witness: one page of two raw records. -/
def pagesW : List (List (List (String × Scalar))) :=
  [[[("DATETIME", Scalar.dt 0), ("GAS", Scalar.num 1)],
    [("DATETIME", Scalar.dt 3600), ("GAS", Scalar.num 2)]]]

/-! ## General lemmas -/

theorem alookup_append_left {κ α : Type} [DecidableEq κ] (a b : List (κ × α)) (k : κ) (w : α)
    (h : alookup a k = some w) : alookup (a ++ b) k = some w := by
  induction a with
  | nil => simp [alookup] at h
  | cons hd tl ih =>
    obtain ⟨k0, v0⟩ := hd
    by_cases hk : k0 = k
    · simpa [alookup, hk] using h
    · rw [List.cons_append]
      simp only [alookup, if_neg hk] at h ⊢
      exact ih h

theorem alookup_map_remap {β : Type} (m : List (String × String)) (g : String → β)
    (src dst : String) (hnd : (m.map Prod.snd).Nodup) (hmem : (src, dst) ∈ m) :
    alookup (m.map fun sd => (sd.2, g sd.1)) dst = some (g src) := by
  induction m with
  | nil => cases hmem
  | cons hd tl ih =>
    obtain ⟨s, d⟩ := hd
    simp only [List.map_cons, List.nodup_cons] at hnd
    rcases List.mem_cons.mp hmem with h | h
    · cases h
      simp [alookup]
    · have hd_ne : d ≠ dst := fun hdd =>
        hnd.1 (by rw [hdd]; exact List.mem_map_of_mem Prod.snd h)
      simp only [List.map_cons, alookup, if_neg hd_ne]
      exact ih hnd.2 h

theorem alookup_buildPayload_of_mem (rec : List (String × Scalar)) (k : String)
    (hk : k ∈ NUMERIC_KEYS) (hmem : ∃ w, (k, w) ∈ rec) :
    ∃ q, alookup (buildPayload rec) k = some q := by
  have hkdt : k ≠ "DATETIME" := by
    intro h; subst h; revert hk; decide
  obtain ⟨w, hw⟩ := hmem
  induction rec with
  | nil => cases hw
  | cons hd tl ih =>
    rcases List.mem_cons.mp hw with h | h
    · cases h
      simp [buildPayload, hkdt, hk, alookup]
    · by_cases hdt : hd.1 = "DATETIME"
      · simp only [buildPayload, if_pos hdt]
        exact ih h
      · by_cases hnum : hd.1 ∈ NUMERIC_KEYS
        · by_cases hkk : hd.1 = k
          · exact ⟨coerceNumeric hd.2, by
              simp [buildPayload, hkk, hkdt, hk, alookup]⟩
          · obtain ⟨q, hq⟩ := ih h
            exact ⟨q, by
              simp only [buildPayload, if_neg hdt, if_pos hnum, alookup, if_neg hkk]
              exact hq⟩
        · simp only [buildPayload, if_neg hdt, if_neg hnum]
          exact ih h

theorem alookup_buildPayload_not_mem (rec : List (String × Scalar)) (k : String)
    (hk : k ∉ NUMERIC_KEYS) : alookup (buildPayload rec) k = none := by
  induction rec with
  | nil => rfl
  | cons hd tl ih =>
    by_cases hdt : hd.1 = "DATETIME"
    · simp only [buildPayload, if_pos hdt]; exact ih
    · by_cases hnum : hd.1 ∈ NUMERIC_KEYS
      · have hne : hd.1 ≠ k := fun hh => hk (hh ▸ hnum)
        simp only [buildPayload, if_neg hdt, if_pos hnum, alookup, if_neg hne]
        exact ih
      · simp only [buildPayload, if_neg hdt, if_neg hnum]; exact ih

/-! ## Claim theorems -/

/-- C2 (amended): for every raw record whose `DATETIME` field is present
with a parsable timestamp, `validate_raw` never raises, whatever mixture
of numeric, blank, null or garbage values the other fields hold; every
recognized numeric key (from the `NUMERIC_KEYS` allow-list) that occurs in
the record is present in the resulting payload with a float-or-null value,
and keys outside the allow-list are dropped from the payload. -/
theorem validate_raw_total (rec : List (String × Scalar)) (v : Scalar) (ts : ℤ)
    (hdt : alookup rec "DATETIME" = some v) (hts : parse_dt v = some ts) :
    validate_raw rec = .ok ⟨ts, buildPayload rec⟩ ∧
    (∀ k, k ∈ NUMERIC_KEYS → (∃ w, (k, w) ∈ rec) →
      ∃ q, alookup (buildPayload rec) k = some q) ∧
    (∀ k, k ∉ NUMERIC_KEYS → alookup (buildPayload rec) k = none) := by
  refine ⟨?_, fun k hk hm => alookup_buildPayload_of_mem rec k hk hm,
    fun k hk => alookup_buildPayload_not_mem rec k hk⟩
  simp [validate_raw, hdt, hts]

/-- Witness for C2 (amended) on a concrete record with a blank, a null, a
garbage numeric and an unknown field. -/
theorem validate_raw_total_witness :
    validate_raw
        [("DATETIME", .str "2024-01-01T00:00:00Z"), ("GAS", .str ""),
         ("COAL", .str "garbage"), ("WIND", .null), ("UNKNOWN", .num 7)] =
      .ok ⟨1704067200,
        buildPayload
          [("DATETIME", .str "2024-01-01T00:00:00Z"), ("GAS", .str ""),
           ("COAL", .str "garbage"), ("WIND", .null), ("UNKNOWN", .num 7)]⟩ :=
  (validate_raw_total _ (.str "2024-01-01T00:00:00Z") 1704067200
    (by decide) (by decide)).1

/-- C2 counterexample: a record with a valid timestamp and no other fields
validates successfully, yet the recognized numeric key `GAS` is not
present in the resulting payload — so not every allow-listed key is
present in the payload, only those that occur in the record. -/
theorem validate_raw_absent_key_counterexample :
    validate_raw [("DATETIME", Scalar.dt 0)] = .ok ⟨0, []⟩ ∧
    "GAS" ∈ NUMERIC_KEYS ∧
    alookup (Record.payload ⟨0, []⟩) "GAS" = none := by
  decide

/-- C8: `validate_raw` fails with the missing-field error exactly when the
raw record lacks the `DATETIME` key, and with `DATETIME` present and
parsable no other field's value ever causes the validator to reject the
record — the outcome is a propagated error value, never a silent skip. -/
theorem validate_raw_missing_iff (rec : List (String × Scalar)) :
    (validate_raw rec = .error .missingField ↔ alookup rec "DATETIME" = none) ∧
    (∀ v ts, alookup rec "DATETIME" = some v → parse_dt v = some ts →
      validate_raw rec = .ok ⟨ts, buildPayload rec⟩) := by
  constructor
  · constructor
    · intro h
      cases hd : alookup rec "DATETIME" with
      | none => rfl
      | some v => cases hp : parse_dt v <;> simp [validate_raw, hd, hp] at h
    · intro h; simp [validate_raw, h]
  · intro v ts hd hp; simp [validate_raw, hd, hp]

/-- Witness for C8: a record without `DATETIME` is rejected with the
missing-field error; one with `DATETIME` and a garbage numeric field is
accepted. -/
theorem validate_raw_missing_iff_witness :
    validate_raw [("GAS", Scalar.num 5)] = .error .missingField ∧
    validate_raw [("DATETIME", Scalar.dt 60), ("GAS", Scalar.str "oops")] =
      .ok ⟨60, buildPayload [("DATETIME", Scalar.dt 60), ("GAS", Scalar.str "oops")]⟩ :=
  ⟨(validate_raw_missing_iff [("GAS", Scalar.num 5)]).1.mpr (by decide),
   (validate_raw_missing_iff _).2 (Scalar.dt 60) 60 (by decide) (by decide)⟩

/-- C6: `to_row` is a pure total function whose output has exactly the
warehouse columns of `MAP_KEYS` as keys (in order, nothing else), each
holding the payload's value for the corresponding upstream key, or null
when that key is absent from the payload. -/
theorem to_row_exact_columns (payload : Vals) :
    (to_row payload).map Prod.fst = MAP_KEYS.map Prod.snd ∧
    (∀ src dst, (src, dst) ∈ MAP_KEYS →
      alookup (to_row payload) dst = some ((alookup payload src).getD none)) :=
  ⟨rfl, fun src dst hmem =>
    alookup_map_remap MAP_KEYS (fun s => (alookup payload s).getD none) src dst
      (by decide) hmem⟩

/-- Witness for C6: on a payload holding only `GAS`, the `gas_mw` column
carries the value and `coal_mw` is null. -/
theorem to_row_exact_columns_witness :
    alookup (to_row [("GAS", some 150)]) "gas_mw" =
        some ((alookup [("GAS", some (150 : ℚ))] "GAS").getD none) ∧
    alookup (to_row [("GAS", some 150)]) "coal_mw" =
        some ((alookup [("GAS", some (150 : ℚ))] "COAL").getD none) :=
  ⟨(to_row_exact_columns [("GAS", some 150)]).2 "GAS" "gas_mw" (by decide),
   (to_row_exact_columns [("GAS", some 150)]).2 "COAL" "coal_mw" (by decide)⟩

/-- C7: `upsert_rows` returns the number of rows submitted, and an empty
input list performs no store operation and returns 0. -/
theorem upsert_rows_returns_count (t : Table) (rows : List (ℤ × Vals)) :
    (upsert_rows t rows).2 = rows.length ∧ upsert_rows t [] = (t, 0) := by
  refine ⟨?_, rfl⟩
  cases rows <;> rfl

/-- C4: the incremental clamp never changes the originally computed end of
the window; with incremental mode on and a non-empty store the effective
start is `max(requested_start, latest - overlap_hours)`; with an empty
store or incremental mode disabled the start is unchanged. -/
theorem compute_window_clamp (now days overlap_hours : ℤ) (sd ed : Option ℤ)
    (ni : Bool) (t : Table) :
    (compute_window now days overlap_hours sd ed ni t).2 = ed.getD (now + 1800) ∧
    (∀ last, ni = false → get_max_dt t = some last →
      (compute_window now days overlap_hours sd ed ni t).1 =
        max (sd.getD (now - days * 86400)) (last - overlap_hours * 3600)) ∧
    ((ni = true ∨ get_max_dt t = none) →
      (compute_window now days overlap_hours sd ed ni t).1 = sd.getD (now - days * 86400)) := by
  refine ⟨rfl, ?_, ?_⟩
  · intro last hni hmax
    subst hni
    simp [compute_window, hmax]
  · intro h
    rcases h with h | h
    · subst h; rfl
    · cases ni
      · simp [compute_window, h]
      · rfl

/-- Witness for C4 on a concrete incremental run over a one-row store. -/
theorem compute_window_clamp_witness :
    (compute_window 0 3 48 none none false [(100, [])]).1 =
      max ((none : Option ℤ).getD (0 - 3 * 86400)) (100 - 48 * 3600) :=
  (compute_window_clamp 0 3 48 none none false [(100, [])]).2.1 100 rfl (by decide)

/-! ## Pagination lemmas (C3) -/

theorem iter_window_go_empty {α : Type} (fetch : ℕ → List α) (n fuel offset : ℕ)
    (hf : fetch offset = []) :
    iter_window_go fetch n (fuel + 1) offset = ([], 1) := by
  simp [iter_window_go, hf]

theorem iter_window_go_short {α : Type} (fetch : ℕ → List α) (n fuel offset : ℕ)
    (hne : fetch offset ≠ []) (hshort : (fetch offset).length < n) :
    iter_window_go fetch n (fuel + 1) offset = ([fetch offset], 1) := by
  have he : (fetch offset).isEmpty = false := by
    cases hf : fetch offset
    · exact absurd hf hne
    · rfl
  simp [iter_window_go, he, hshort]

theorem iter_window_go_full {α : Type} (fetch : ℕ → List α) (n fuel offset : ℕ)
    (hlen : (fetch offset).length = n) (hn : 0 < n) :
    iter_window_go fetch n (fuel + 1) offset =
      (fetch offset :: (iter_window_go fetch n fuel (offset + n)).1,
       (iter_window_go fetch n fuel (offset + n)).2 + 1) := by
  have he : (fetch offset).isEmpty = false := by
    cases hf : fetch offset
    · rw [hf] at hlen
      simp at hlen
      omega
    · rfl
  have hns : ¬ (fetch offset).length < n := by omega
  simp [iter_window_go, he, hns, hlen]

/-- C3 counterexample: with `batch_size = 1` the upstream returns
successive pages of sizes `[n, n, k] = [1, 1, 0]` with `k < n`, yet
`iter_window` yields only the 2 non-empty pages (issuing 3 requests) — not
"exactly those 3 pages" as claimed, because an empty page is never
yielded. -/
theorem iter_window_counterexample :
    (fetchCE 0).length = 1 ∧ (fetchCE 1).length = 1 ∧
    (fetchCE 2).length = 0 ∧ (0 : ℕ) < 1 ∧
    iter_window fetchCE 1 10 = ([[10], [11]], 3) ∧
    (iter_window fetchCE 1 10).1.length = 2 := by
  decide

/-- C3 (amended): for every `batch_size` `n`, if the upstream returns
successive pages of sizes `[n, n, k]` with `0 < k < n`, `iter_window`
yields exactly those 3 pages and stops without a further request (3
requests in total); if it returns pages `[n, n, n]` (all full, `0 < n`),
`iter_window` issues a 4th request, and if that page is empty it stops
yielding exactly the 3 full pages; an empty page is never yielded. Either
behaviour is independent of the loop fuel once sufficient. -/
theorem iter_window_pagination {α : Type} (fetch : ℕ → List α) (n : ℕ) :
    ((fetch 0).length = n → (fetch n).length = n →
      (fetch (2 * n)).length < n → fetch (2 * n) ≠ [] →
      ∀ fuel, 3 ≤ fuel →
        iter_window fetch n fuel = ([fetch 0, fetch n, fetch (2 * n)], 3)) ∧
    (0 < n → (fetch 0).length = n → (fetch n).length = n →
      (fetch (2 * n)).length = n → fetch (3 * n) = [] →
      ∀ fuel, 4 ≤ fuel →
        iter_window fetch n fuel = ([fetch 0, fetch n, fetch (2 * n)], 4)) ∧
    (∀ fuel offset, [] ∉ (iter_window_go fetch n fuel offset).1) := by
  refine ⟨?_, ?_, ?_⟩
  · intro h0 h1 h2 hne fuel hfuel
    have hn : 0 < n := by omega
    obtain ⟨k, rfl⟩ : ∃ k, fuel = k + 3 := ⟨fuel - 3, by omega⟩
    unfold iter_window
    rw [show k + 3 = (k + 2) + 1 from rfl, iter_window_go_full fetch n (k + 2) 0 h0 hn]
    rw [show (0 : ℕ) + n = n from by omega]
    rw [show k + 2 = (k + 1) + 1 from rfl, iter_window_go_full fetch n (k + 1) n h1 hn]
    rw [show n + n = 2 * n from by omega]
    rw [show k + 1 = k + 1 from rfl, iter_window_go_short fetch n k (2 * n) hne h2]
  · intro hn h0 h1 h2 h3 fuel hfuel
    obtain ⟨k, rfl⟩ : ∃ k, fuel = k + 4 := ⟨fuel - 4, by omega⟩
    unfold iter_window
    rw [show k + 4 = (k + 3) + 1 from rfl, iter_window_go_full fetch n (k + 3) 0 h0 hn]
    rw [show (0 : ℕ) + n = n from by omega]
    rw [show k + 3 = (k + 2) + 1 from rfl, iter_window_go_full fetch n (k + 2) n h1 hn]
    rw [show n + n = 2 * n from by omega]
    rw [show k + 2 = (k + 1) + 1 from rfl, iter_window_go_full fetch n (k + 1) (2 * n) h2 hn]
    rw [show 2 * n + n = 3 * n from by omega]
    rw [show k + 1 = k + 1 from rfl, iter_window_go_empty fetch n k (3 * n) h3]
  · intro fuel offset
    induction fuel generalizing offset with
    | zero => simp [iter_window_go]
    | succ f ih =>
      by_cases hf : fetch offset = []
      · rw [iter_window_go_empty fetch n f offset hf]
        simp
      · by_cases hs : (fetch offset).length < n
        · rw [iter_window_go_short fetch n f offset hf hs]
          simp
          exact hf
        · have he : (fetch offset).isEmpty = false := by
            cases hfe : fetch offset
            · exact absurd hfe hf
            · rfl
          simp only [iter_window_go, he, Bool.false_eq_true, if_false, if_neg hs]
          simp only [List.mem_cons, not_or]
          exact ⟨fun h => hf h.symm, ih (offset + (fetch offset).length)⟩

/-- Witness for C3 (amended): the `[n, n, k]` case with `n = 2`, `k = 1`
yields exactly the three pages in 3 requests. -/
theorem iter_window_pagination_witness :
    iter_window fetchW 2 9 = ([fetchW 0, fetchW 2, fetchW (2 * 2)], 3) :=
  (iter_window_pagination fetchW 2).1 (by decide) (by decide) (by decide)
    (by decide) 9 (by omega)

/-! ## Retry lemmas (C5) -/

theorem fetch_sql_go_attempts_le {α : Type} (transport : ℕ → Except String α)
    (f : ℕ) : ∀ a, (fetch_sql_go transport a f).2.2 ≤ f := by
  induction f with
  | zero => intro a; simp [fetch_sql_go]
  | succ f ih =>
    intro a
    simp only [fetch_sql_go]
    cases transport a
    · by_cases h : a = MAX_RETRIES - 1
      · simp [h]
      · simp only [if_neg h]
        have := ih (a + 1)
        omega
    · simp

/-- C5: every page fetch makes at most `MAX_RETRIES = 5` transport
attempts; if the first `k ≤ 4` attempts fail transiently and attempt `k`
succeeds, the page is returned after a total scheduled sleep of
`2^k - 1` seconds (so 4 failures then success gives `1+2+4+8 = 15`) in
`k + 1` attempts; if all 5 attempts fail, the final transport error
propagates after the same 15 seconds of accumulated sleep, with no sleep
after the last attempt. -/
theorem fetch_sql_retry_policy {α : Type} (transport : ℕ → Except String α) :
    (fetch_sql transport).2.2 ≤ MAX_RETRIES ∧
    (∀ k a, k ≤ 4 → (∀ i, i < k → ∃ e, transport i = .error e) →
      transport k = .ok a →
      fetch_sql transport = (.ok a, 2 ^ k - 1, k + 1)) ∧
    ((∀ i, i < 5 → ∃ e, transport i = .error e) →
      ∃ e, transport 4 = .error e ∧ fetch_sql transport = (.error e, 15, 5)) := by
  refine ⟨fetch_sql_go_attempts_le transport MAX_RETRIES 0, ?_, ?_⟩
  · intro k a hk hfail hok
    interval_cases k
    · simp [fetch_sql, fetch_sql_go, MAX_RETRIES, hok]
    · obtain ⟨e0, h0⟩ := hfail 0 (by omega)
      simp [fetch_sql, fetch_sql_go, MAX_RETRIES, h0, hok]
    · obtain ⟨e0, h0⟩ := hfail 0 (by omega)
      obtain ⟨e1, h1⟩ := hfail 1 (by omega)
      simp [fetch_sql, fetch_sql_go, MAX_RETRIES, h0, h1, hok]
    · obtain ⟨e0, h0⟩ := hfail 0 (by omega)
      obtain ⟨e1, h1⟩ := hfail 1 (by omega)
      obtain ⟨e2, h2⟩ := hfail 2 (by omega)
      simp [fetch_sql, fetch_sql_go, MAX_RETRIES, h0, h1, h2, hok]
    · obtain ⟨e0, h0⟩ := hfail 0 (by omega)
      obtain ⟨e1, h1⟩ := hfail 1 (by omega)
      obtain ⟨e2, h2⟩ := hfail 2 (by omega)
      obtain ⟨e3, h3⟩ := hfail 3 (by omega)
      simp [fetch_sql, fetch_sql_go, MAX_RETRIES, h0, h1, h2, h3, hok]
  · intro hfail
    obtain ⟨e0, h0⟩ := hfail 0 (by omega)
    obtain ⟨e1, h1⟩ := hfail 1 (by omega)
    obtain ⟨e2, h2⟩ := hfail 2 (by omega)
    obtain ⟨e3, h3⟩ := hfail 3 (by omega)
    obtain ⟨e4, h4⟩ := hfail 4 (by omega)
    exact ⟨e4, h4, by simp [fetch_sql, fetch_sql_go, MAX_RETRIES, h0, h1, h2, h3, h4]⟩

/-! ## Upsert lemmas (C1) -/

theorem alookup_upsert_one_ne (cols : List String) (t : Table) (r : ℤ × Vals) (k : ℤ)
    (hk : k ≠ r.1) : alookup (upsert_one cols t r) k = alookup t k := by
  induction t with
  | nil =>
    have : r.1 ≠ k := fun h => hk h.symm
    simp [upsert_one, alookup, this]
  | cons hd tl ih =>
    obtain ⟨k0, v0⟩ := hd
    by_cases h0 : k0 = r.1
    · subst h0
      have hne : r.1 ≠ k := fun h => hk h.symm
      simp [upsert_one, alookup, hne]
    · by_cases hk0 : k0 = k
      · subst hk0
        simp [upsert_one, h0, alookup]
      · simp [upsert_one, h0, alookup, hk0, ih]

theorem entryGood_upsert_one_self (cols : List String) (t : Table) (r : ℤ × Vals) :
    entryGood cols r (upsert_one cols t r) := by
  induction t with
  | nil => exact ⟨[], by simp [upsert_one, alookup], by simp⟩
  | cons hd tl ih =>
    obtain ⟨k0, v0⟩ := hd
    by_cases h0 : k0 = r.1
    · refine ⟨v0.filter (fun kv => decide (kv.1 ∉ cols)), ?_, ?_⟩
      · simp [upsert_one, h0, alookup]
      · intro kv hkv
        exact of_decide_eq_true (List.mem_filter.mp hkv).2
    · obtain ⟨y, hy, hprop⟩ := ih
      exact ⟨y, by simp [upsert_one, h0, alookup, hy], hprop⟩

theorem entryGood_preserved (cols : List String) (t : Table) (r r' : ℤ × Vals)
    (hne : r'.1 ≠ r.1) (h : entryGood cols r t) :
    entryGood cols r (upsert_one cols t r') := by
  obtain ⟨y, hy, hp⟩ := h
  exact ⟨y, by rw [alookup_upsert_one_ne cols t r' r.1 (Ne.symm hne)]; exact hy, hp⟩

theorem entryGood_foldl_preserved (cols : List String) (rows : List (ℤ × Vals))
    (r : ℤ × Vals) (hne : ∀ r' ∈ rows, r'.1 ≠ r.1) :
    ∀ t, entryGood cols r t → entryGood cols r (rows.foldl (upsert_one cols) t) := by
  induction rows with
  | nil => exact fun t h => h
  | cons a rest ih =>
    intro t h
    simp only [List.foldl_cons]
    exact ih (fun r' hr' => hne r' (List.mem_cons_of_mem a hr')) _
      (entryGood_preserved cols t r a (hne a (List.mem_cons_self a rest)) h)

theorem entryGood_foldl (cols : List String) (rows : List (ℤ × Vals)) (r : ℤ × Vals)
    (hmem : r ∈ rows) (hnd : (rows.map Prod.fst).Nodup) :
    ∀ t, entryGood cols r (rows.foldl (upsert_one cols) t) := by
  induction rows with
  | nil => cases hmem
  | cons a rest ih =>
    intro t
    simp only [List.map_cons, List.nodup_cons] at hnd
    simp only [List.foldl_cons]
    rcases List.mem_cons.mp hmem with h | h
    · subst h
      exact entryGood_foldl_preserved cols rest r
        (fun r' hr' heq => hnd.1 (heq ▸ List.mem_map_of_mem Prod.fst hr')) _
        (entryGood_upsert_one_self cols t r)
    · exact ih h hnd.2 (upsert_one cols t a)

theorem upsert_one_id (cols : List String) (r : ℤ × Vals)
    (hcols : r.2.map Prod.fst = cols) :
    ∀ t, entryGood cols r t → upsert_one cols t r = t := by
  intro t hgood
  induction t with
  | nil =>
    obtain ⟨y, hy, _⟩ := hgood
    simp [alookup] at hy
  | cons hd tl ih =>
    obtain ⟨k0, v0⟩ := hd
    obtain ⟨y, hy, hprop⟩ := hgood
    by_cases h0 : k0 = r.1
    · subst h0
      simp [alookup] at hy
      subst hy
      have h1 : (r.2).filter (fun kv => !decide (kv.1 ∈ cols)) = [] := by
        rw [List.filter_eq_nil_iff]
        intro kv hkv
        have hmem : kv.1 ∈ cols := hcols ▸ List.mem_map_of_mem Prod.fst hkv
        simp [hmem]
      have h2 : y.filter (fun kv => !decide (kv.1 ∈ cols)) = y := by
        rw [List.filter_eq_self]
        intro kv hkv
        simp [hprop kv hkv]
      simp [upsert_one, List.filter_append, h1, h2]
    · simp only [alookup, if_neg h0] at hy
      simp only [upsert_one, if_neg h0, List.cons.injEq, true_and]
      exact ih ⟨y, hy, hprop⟩

theorem foldl_upsert_id (cols : List String) (rows : List (ℤ × Vals))
    (hcols : ∀ r ∈ rows, r.2.map Prod.fst = cols) :
    ∀ t, (∀ r ∈ rows, entryGood cols r t) → rows.foldl (upsert_one cols) t = t := by
  induction rows with
  | nil => intro t _; rfl
  | cons a rest ih =>
    intro t hgood
    simp only [List.foldl_cons]
    rw [upsert_one_id cols a (hcols a (List.mem_cons_self a rest)) t
      (hgood a (List.mem_cons_self a rest))]
    exact ih (fun r hr => hcols r (List.mem_cons_of_mem a hr)) t
      (fun r hr => hgood r (List.mem_cons_of_mem a hr))

theorem upsert_one_keys_sub (cols : List String) (t : Table) (r : ℤ × Vals) :
    ∀ k ∈ (upsert_one cols t r).map Prod.fst, k ∈ t.map Prod.fst ∨ k = r.1 := by
  induction t with
  | nil => simp [upsert_one]
  | cons hd tl ih =>
    obtain ⟨k0, v0⟩ := hd
    by_cases h0 : k0 = r.1
    · simp [upsert_one, h0]
      exact fun a x hax => Or.inl (Or.inr ⟨x, hax⟩)
    · intro k hk
      simp only [upsert_one, if_neg h0, List.map_cons, List.mem_cons] at hk
      rcases hk with hk | hk
      · exact Or.inl (by simp [hk])
      · rcases ih k hk with h | h
        · exact Or.inl (by simp [h])
        · exact Or.inr h

theorem upsert_one_nodup (cols : List String) (t : Table) (r : ℤ × Vals)
    (h : (t.map Prod.fst).Nodup) : ((upsert_one cols t r).map Prod.fst).Nodup := by
  induction t with
  | nil => simp [upsert_one]
  | cons hd tl ih =>
    obtain ⟨k0, v0⟩ := hd
    simp only [List.map_cons, List.nodup_cons] at h
    by_cases h0 : k0 = r.1
    · simp only [upsert_one, if_pos h0, List.map_cons, List.nodup_cons]
      exact ⟨h.1, h.2⟩
    · simp only [upsert_one, if_neg h0, List.map_cons, List.nodup_cons]
      refine ⟨?_, ih h.2⟩
      intro hk0
      rcases upsert_one_keys_sub cols tl r k0 hk0 with hin | heq
      · exact h.1 hin
      · exact h0 heq

theorem foldl_upsert_nodup (cols : List String) (rows : List (ℤ × Vals)) :
    ∀ t : Table, (t.map Prod.fst).Nodup →
      ((rows.foldl (upsert_one cols) t).map Prod.fst).Nodup := by
  induction rows with
  | nil => exact fun t h => h
  | cons a rest ih =>
    intro t h
    simp only [List.foldl_cons]
    exact ih _ (upsert_one_nodup cols t a h)

/-- C1: for a non-empty batch of rows sharing the first row's key set and
keyed by distinct `datetime_utc` values, upserting the batch a second time
leaves the stored table unchanged; after the (first) upsert every non-key
column of each submitted row reads back as the incoming value; and a table
with unique keys keeps at most one row per `datetime_utc`. -/
theorem upsert_rows_idempotent (t : Table) (rows : List (ℤ × Vals))
    (hne : rows ≠ [])
    (hcols : ∀ r ∈ rows, r.2.map Prod.fst = rows.headI.2.map Prod.fst)
    (hnd : (rows.map Prod.fst).Nodup) :
    (upsert_rows (upsert_rows t rows).1 rows).1 = (upsert_rows t rows).1 ∧
    (∀ r ∈ rows, ∀ c w, alookup r.2 c = some w →
      ∃ e, alookup (upsert_rows t rows).1 r.1 = some e ∧ alookup e c = some w) ∧
    ((t.map Prod.fst).Nodup → (((upsert_rows t rows).1).map Prod.fst).Nodup) := by
  obtain ⟨r0, rest, rfl⟩ : ∃ r0 rest, rows = r0 :: rest := by
    cases rows with
    | nil => exact absurd rfl hne
    | cons a b => exact ⟨a, b, rfl⟩
  simp only [List.headI] at hcols
  set cols := r0.2.map Prod.fst with hcols_def
  have hup : ∀ s : Table, (upsert_rows s (r0 :: rest)).1 =
      (r0 :: rest).foldl (upsert_one cols) s := fun s => rfl
  refine ⟨?_, ?_, ?_⟩
  · rw [hup, hup]
    exact foldl_upsert_id cols (r0 :: rest) hcols _
      (fun r hr => entryGood_foldl cols (r0 :: rest) r hr hnd t)
  · intro r hr c w hw
    obtain ⟨y, hy, _⟩ := entryGood_foldl cols (r0 :: rest) r hr hnd t
    exact ⟨r.2 ++ y, by rw [hup]; exact hy, alookup_append_left r.2 y c w hw⟩
  · intro ht
    rw [hup]
    exact foldl_upsert_nodup cols (r0 :: rest) t ht

/-- Witness for C1: upserting the concrete batch twice equals upserting it
once, on an initially empty table. -/
theorem upsert_rows_idempotent_witness :
    (upsert_rows (upsert_rows [] rowsW).1 rowsW).1 = (upsert_rows [] rowsW).1 :=
  (upsert_rows_idempotent [] rowsW (by decide) (by decide) (by decide)).1

/-! ## Window non-emptiness (C9) -/

/-- C9 counterexample: an explicit `end_date` override lying before the
start produces an empty (inverted) window — nothing in `run` enforces
`end ≥ start + cushion` for overridden bounds. -/
theorem compute_window_empty_counterexample :
    (compute_window 0 0 0 (some 100) (some 0) true []).2 <
      (compute_window 0 0 0 (some 100) (some 0) true []).1 := by
  decide

/-- C9 (amended): when neither bound is explicitly overridden, `days` and
`overlap_hours` are non-negative, and every stored maximum timestamp is at
most the hour-aligned now, the computed window satisfies
`end ≥ start + 1800` (the 30-minute cushion) — including after the
incremental clamp; explicit date overrides can produce an empty window. -/
theorem compute_window_nonempty (now days overlap_hours : ℤ) (ni : Bool) (t : Table)
    (hdays : 0 ≤ days) (hov : 0 ≤ overlap_hours)
    (hlatest : ∀ l, get_max_dt t = some l → l ≤ now) :
    (compute_window now days overlap_hours none none ni t).1 + 1800 ≤
      (compute_window now days overlap_hours none none ni t).2 := by
  have hd : 0 ≤ days * 86400 := by positivity
  have ho : 0 ≤ overlap_hours * 3600 := by positivity
  cases ni
  · cases hmax : get_max_dt t with
    | none => simp [compute_window, hmax]; omega
    | some l =>
      have hl := hlatest l hmax
      simp only [compute_window, Option.getD, hmax]
      have h1 : now - days * 86400 ≤ now := by omega
      have h2 : l - overlap_hours * 3600 ≤ now := by omega
      have := max_le h1 h2
      simp only [Bool.false_eq_true, if_false]
      omega
  · simp [compute_window]; omega

/-- Witness for C9 (amended) on a concrete defaulted incremental run. -/
theorem compute_window_nonempty_witness :
    (compute_window 3600 3 48 none none false [(1800, [])]).1 + 1800 ≤
      (compute_window 3600 3 48 none none false [(1800, [])]).2 :=
  compute_window_nonempty 3600 3 48 false [(1800, [])] (by omega) (by omega)
    (fun l hl => by
      simp [get_max_dt] at hl
      omega)

/-- Witness for C5: a transport failing 4 times then succeeding returns
the page on the 5th attempt after 15 seconds of scheduled sleep. -/
theorem fetch_sql_retry_policy_witness :
    fetch_sql transportW = (.ok 42, 2 ^ 4 - 1, 4 + 1) :=
  (fetch_sql_retry_policy transportW).2.1 4 42 (by omega)
    (fun i hi => by
      interval_cases i
      · exact ⟨"boom0", rfl⟩
      · exact ⟨"boom1", rfl⟩
      · exact ⟨"boom2", rfl⟩
      · exact ⟨"boom3", rfl⟩)
    (by decide)

/-! ## Stream-and-buffer lemmas (C10) -/

theorem upsert_rows_snd_eq (t : Table) (rows : List (ℤ × Vals)) :
    (upsert_rows t rows).2 = rows.length := by
  cases rows <;> rfl

theorem rowifyChunk_length (chunk : List (List (String × Scalar))) :
    ∀ rows, rowifyChunk chunk = .ok rows → rows.length = chunk.length := by
  induction chunk with
  | nil =>
    intro rows h
    simp only [rowifyChunk] at h
    cases h
    rfl
  | cons rec rest ih =>
    intro rows h
    simp only [rowifyChunk] at h
    cases hr : rowify rec with
    | error e => rw [hr] at h; simp at h
    | ok row =>
      rw [hr] at h
      cases hrest : rowifyChunk rest with
      | error e => rw [hrest] at h; simp [Except.map] at h
      | ok rs =>
        rw [hrest] at h
        simp only [Except.map, Except.ok.injEq] at h
        subst h
        simp [ih rs hrest]

theorem run_stream_go_stats :
    ∀ (pages : List (List (List (String × Scalar)))) (t : Table)
      (buf : List (ℤ × Vals)) (tin tok : ℕ) (t' : Table) (f u : ℕ),
      run_stream_go t buf tin tok pages = .ok (t', f, u) →
      tin = tok + buf.length → f = u := by
  intro pages
  induction pages with
  | nil =>
    intro t buf tin tok t' f u h hinv
    by_cases hb : buf.isEmpty
    · simp only [run_stream_go, if_pos hb] at h
      simp at h
      obtain ⟨-, h2, h3⟩ := h
      have hb' : buf = [] := List.isEmpty_iff.mp hb
      subst hb'
      simp at hinv
      omega
    · simp only [run_stream_go, if_neg hb] at h
      simp at h
      obtain ⟨-, h2, h3⟩ := h
      rw [upsert_rows_snd_eq] at h3
      omega
  | cons chunk rest ih =>
    intro t buf tin tok t' f u h hinv
    cases hc : rowifyChunk chunk with
    | error e =>
      simp only [run_stream_go, hc] at h
      cases h
    | ok rows =>
      simp only [run_stream_go, hc] at h
      have hlen := rowifyChunk_length chunk rows hc
      have happ : (buf ++ rows).length = buf.length + rows.length :=
        List.length_append _ _
      by_cases hflush : BATCH_WRITE_SIZE ≤ (buf ++ rows).length
      · rw [if_pos hflush] at h
        refine ih _ _ _ _ _ _ _ h ?_
        rw [upsert_rows_snd_eq]
        simp only [List.length_nil]
        omega
      · rw [if_neg hflush] at h
        refine ih _ _ _ _ _ _ _ h ?_
        omega

/-- C10: on every run of the streaming loop that completes without error,
the returned stats satisfy fetched = upserted — every raw record pulled
from the upstream pages is validated, transformed, buffered and flushed to
the store exactly once between the two counters. -/
theorem run_stream_fetched_eq_upserted (t : Table)
    (pages : List (List (List (String × Scalar)))) (t' : Table) (f u : ℕ)
    (h : run_stream t pages = .ok (t', f, u)) : f = u :=
  run_stream_go_stats pages t [] 0 0 t' f u h rfl

/-- Witness for C10: a concrete error-free run fetches 2 records and
upserts 2 rows, and the theorem yields their equality. -/
theorem run_stream_fetched_eq_upserted_witness :
    run_stream [] pagesW =
      .ok ([(0, to_row [("GAS", some 1)]), (3600, to_row [("GAS", some 2)])], 2, 2) ∧
    (2 : ℕ) = 2 :=
  ⟨by decide,
   run_stream_fetched_eq_upserted [] pagesW
     [(0, to_row [("GAS", some 1)]), (3600, to_row [("GAS", some 2)])] 2 2 (by decide)⟩

end GenMix
